import Mathlib

/-!
Verification development for `lzma_tool.py`, a single-file CLI that
compresses or decompresses one file through the XZ/LZMA codec.

The embedding below translates the Python source shallowly:

* file contents are `List Nat` (byte lists);
* paths are `List Char` (the string form of `pathlib.Path`); the
  `suffix` / `with_suffix` operations of `pathlib` are reproduced on the
  final path component, following CPython's implementation;
* the filesystem is a map from path to optional content; directories are
  not tracked (`mkdir -p` never fails and does not change file contents);
* the external `lzma` library is abstract: a `Codec` supplies `encode`
  and `decode`, and the driver model additionally takes fault flags that
  stand for an `LZMAError` or an `OSError` raised during the codec call,
  and for a failing `unlink` during cleanup;
* `main` becomes `runMain`, returning the exit code, the final
  filesystem, and the diagnostic lines printed on stderr.
-/

namespace LzmaTool

abbrev Bytes := List Nat

abbrev PathStr := List Char

/-- `CHUNK_SIZE = 1024 * 1024` from the source. -/
def CHUNK_SIZE : Nat := 1024 * 1024

/-- The read/write loop of `compress_file` / `decompress_file`: read up to
`CHUNK_SIZE` bytes, stop on an empty read, otherwise write the chunk and
continue.  `fuel` bounds the recursion; the loop consumes at least one byte
per round, so `src.length` rounds always suffice. -/
def pumpAux : Nat → Bytes → Bytes
  | 0, _ => []
  | _ + 1, [] => []
  | fuel + 1, src => src.take CHUNK_SIZE ++ pumpAux fuel (src.drop CHUNK_SIZE)

/-- Bytes written by the chunked copy loop when the readable data is `src`. -/
def pump (src : Bytes) : Bytes :=
  pumpAux src.length src

/-- Final component of a path string: everything after the last `/`
(CPython `PurePath.name` for normalized path strings). -/
def nameOf (p : PathStr) : PathStr :=
  (p.reverse.takeWhile (fun c => c ≠ '/')).reverse

/-- Everything up to and including the last `/` of a path string. -/
def dirOf (p : PathStr) : PathStr :=
  (p.reverse.dropWhile (fun c => c ≠ '/')).reverse

/-- Case split of `suffixOfName` on the reversed name at its first dot:
`after` is what follows the last dot of the name and the second argument is
the rest of the reversed name from that dot on.  An empty second argument
means no dot at all; `after = []` means the dot is the last character
(`i = len - 1`); an empty tail means the dot is the first character
(`i = 0`).  In all three cases CPython returns the empty suffix. -/
def suffixAux (after : PathStr) : PathStr → PathStr
  | [] => []
  | _ :: restTail => if after = [] ∨ restTail = [] then [] else '.' :: after.reverse

/-- CPython `PurePath.suffix` on the name: with `i` the index of the last
dot, the suffix is `name[i:]` when `0 < i < len(name) - 1`, else empty. -/
def suffixOfName (n : PathStr) : PathStr :=
  suffixAux (n.reverse.takeWhile (fun c => c ≠ '.')) (n.reverse.dropWhile (fun c => c ≠ '.'))

/-- `Path.suffix` of a whole path. -/
def pathSuffix (p : PathStr) : PathStr :=
  suffixOfName (nameOf p)

/-- CPython `PurePath.with_suffix`: replace (or append, when there is
none) the suffix of the final component.  The `ValueError` guards of
CPython are omitted: both call sites in the source pass suffixes that
satisfy them (either empty, or starting with a dot, dot-initial and
slash-free, with a nonempty name). -/
def with_suffix (p s : PathStr) : PathStr :=
  if suffixOfName (nameOf p) = [] then dirOf p ++ (nameOf p ++ s)
  else
    dirOf p ++ ((nameOf p).take
      ((nameOf p).length - (suffixOfName (nameOf p)).length) ++ s)

/-- `default_output_for_compress`: append `.xz` after an existing suffix,
else append `.xz` to the whole filename (source lines 29-30). -/
def default_output_for_compress (p : PathStr) : PathStr :=
  if pathSuffix p ≠ [] then with_suffix p (pathSuffix p ++ ".xz".toList)
  else p ++ ".xz".toList

/-- `default_output_for_decompress`: strip a suffix that is exactly `.xz`,
else append `.out` (source lines 33-36). -/
def default_output_for_decompress (p : PathStr) : PathStr :=
  if pathSuffix p = ".xz".toList then with_suffix p []
  else p ++ ".out".toList

/-- Abstract external LZMA library: `encode` takes the preset and the bytes
fed to the compressing stream, `decode` returns `none` when the underlying
library raises `LZMAError` on the given stream. -/
structure Codec where
  encode : Nat → Bytes → Bytes
  decode : Bytes → Option Bytes

/-- The filesystem: regular-file contents by path. -/
def FS : Type := PathStr → Option Bytes

/-- Create or truncate-and-rewrite a file (`open(path, "wb")` followed by
the writes of the run). -/
def setFS (fs : FS) (p : PathStr) (d : Bytes) : FS :=
  fun q => if q = p then some d else fs q

/-- `path.unlink()`. -/
def delFS (fs : FS) (p : PathStr) : FS :=
  fun q => if q = p then none else fs q

/-- `Path.is_file()` (the model has no non-regular files). -/
def isFile (fs : FS) (p : PathStr) : Bool :=
  (fs p).isSome

/-- Parsed CLI arguments (argparse restricts `mode` to these two values;
`preset` is `type=int`, so any integer; default 6). -/
inductive Mode
  | compress
  | decompress
deriving DecidableEq

structure Args where
  mode : Mode
  input : PathStr
  output : Option PathStr
  preset : Int
  force : Bool

/-- Faults the external world can inject while the codec call runs:
`lzma` stands for `lzma.LZMAError`, `os` for `OSError`. -/
inductive CodecFault
  | lzma
  | os
deriving DecidableEq

/-- The world a run starts in: the filesystem, an optional fault raised
during the codec call (after both files have been opened, `residue` being
the partially written output at that point), and whether the cleanup
`unlink` itself raises `OSError`. -/
structure World where
  fs : FS
  fault : Option CodecFault
  residue : Bytes
  unlinkFails : Bool

structure RunResult where
  exitCode : Nat
  fs : FS
  stderr : List String

def errNotFound (p : PathStr) : String :=
  "Erreur: fichier introuvable: " ++ String.mk p

def errPreset : String :=
  "Erreur: --preset doit etre entre 0 et 9."

def errExists (p : PathStr) : String :=
  "Erreur: le fichier de sortie existe deja: " ++ String.mk p ++ " (utilisez --force)"

def errLzma : String :=
  "Erreur LZMA"

def errFile : String :=
  "Erreur fichier"

/-- `compress_file` (source lines 11-17): `input.open("rb")`, then
`lzma.open(output, "wb", preset=preset)` creates/truncates the output;
the loop then reads the input in `CHUNK_SIZE` chunks — reading the
truncated content when input and output are the same file — and the
encoder output lands in the output file. -/
def compress_file (c : Codec) (fs : FS) (inp outp : PathStr) (preset : Nat) : FS :=
  setFS (setFS fs outp []) outp (c.encode preset (pump ((setFS fs outp [] inp).getD [])))

/-- `decompress_file` (source lines 20-26): `lzma.open(input, "rb")`, then
`output.open("wb")` creates/truncates the output; the loop reads decoded
chunks and writes them.  `Except.error` carries the filesystem at the
moment the library raises `LZMAError` (output created, nothing written). -/
def decompress_file (c : Codec) (fs : FS) (inp outp : PathStr) : Except FS FS :=
  match c.decode ((setFS fs outp [] inp).getD []) with
  | some d => Except.ok (setFS (setFS fs outp []) outp (pump d))
  | none => Except.error (setFS fs outp [])

/-- The output path `main` resolves (source lines 78 and 80). -/
def resolvedOutput (a : Args) : PathStr :=
  match a.mode with
  | Mode.compress => a.output.getD (default_output_for_compress a.input)
  | Mode.decompress => a.output.getD (default_output_for_decompress a.input)

/-- The `except lzma.LZMAError` handler (source lines 93-100): print one
line, best-effort-unlink the output if it exists, return 2. -/
def lzmaCleanup (w : World) (fs : FS) (outp : PathStr) : RunResult :=
  ⟨2,
   if (fs outp).isSome then (if w.unlinkFails then fs else delFS fs outp) else fs,
   [errLzma]⟩

/-- The guarded codec call of `main` (source lines 88-103).  With no
injected fault, compression always succeeds and decompression fails
exactly when the library's decoder rejects the stream. -/
def codecCall (c : Codec) (w : World) (a : Args) (outp : PathStr) : RunResult :=
  match w.fault with
  | some CodecFault.lzma => lzmaCleanup w (setFS w.fs outp w.residue) outp
  | some CodecFault.os => ⟨3, setFS w.fs outp w.residue, [errFile]⟩
  | none =>
    match a.mode with
    | Mode.compress => ⟨0, compress_file c w.fs a.input outp a.preset.toNat, []⟩
    | Mode.decompress =>
      match decompress_file c w.fs a.input outp with
      | Except.ok fs2 => ⟨0, fs2, []⟩
      | Except.error fs1 => lzmaCleanup w fs1 outp

/-- The overwrite guard and everything after it (source lines 82-116;
`mkdir(parents=True, exist_ok=True)` does not touch file contents and is
dropped; the success path prints to stdout only). -/
def afterValidation (c : Codec) (w : World) (a : Args) (outp : PathStr) : RunResult :=
  if (w.fs outp).isSome ∧ a.force = false then ⟨1, w.fs, [errExists outp]⟩
  else codecCall c w a outp

/-- `main` (source lines 66-116): input existence check, compress-only
preset validation, output resolution, overwrite guard, codec call. -/
def runMain (c : Codec) (w : World) (a : Args) : RunResult :=
  if isFile w.fs a.input = false then ⟨1, w.fs, [errNotFound a.input]⟩
  else
    match a.mode with
    | Mode.compress =>
      if ¬ (0 ≤ a.preset ∧ a.preset ≤ 9) then ⟨1, w.fs, [errPreset]⟩
      else afterValidation c w a (a.output.getD (default_output_for_compress a.input))
    | Mode.decompress =>
      afterValidation c w a (a.output.getD (default_output_for_decompress a.input))

/-- Modelled from the spec: the external XZ codec itself is not part of
this repository, only its use is.  Per spec §6 the wire format is the
standard XZ container; this model prefixes the payload with the six magic
bytes of XZ, and decoding rejects any stream that does not start with
them (spec §4.2: a malformed stream surfaces as a codec error). -/
def xzEncode (_preset : Nat) (data : Bytes) : Bytes :=
  253 :: 55 :: 122 :: 88 :: 90 :: 0 :: data

/-- Modelled from the spec: decoder for `xzEncode`; `none` is the
library raising `LZMAError` on a stream without the XZ magic. -/
def xzDecode : Bytes → Option Bytes
  | 253 :: 55 :: 122 :: 88 :: 90 :: 0 :: rest => some rest
  | _ => none

/-- The spec-modelled codec instance used for concrete runs. -/
def xzCodec : Codec :=
  ⟨xzEncode, xzDecode⟩

/-- Everything `main` checks before the codec call is reached. -/
def validationOk (w : World) (a : Args) : Prop :=
  isFile w.fs a.input = true
  ∧ (a.mode = Mode.compress → 0 ≤ a.preset ∧ a.preset ≤ 9)
  ∧ ((w.fs (resolvedOutput a)).isSome → a.force = true)

instance (w : World) (a : Args) : Decidable (validationOk w a) := by
  unfold validationOk
  infer_instance

/-! ## Concrete fixtures for witness runs -/

/-- A filesystem holding one regular file `foo` with content `[1, 2, 3]`. -/
def fsA : FS :=
  fun q => if q = "foo".toList then some [1, 2, 3] else none

/-- A fault-free world over `fsA`. -/
def worldA : World :=
  ⟨fsA, none, [], false⟩

/-- A filesystem where both `foo` and its default compress output exist. -/
def fsGuard : FS :=
  fun q =>
    if q = "foo".toList then some [1, 2, 3]
    else if q = "foo.xz".toList then some [9] else none

/-- A fault-free world over `fsGuard`. -/
def worldGuard : World :=
  ⟨fsGuard, none, [], false⟩

/-- A filesystem holding a valid model-XZ file `in.xz`. -/
def fsX : FS :=
  fun q => if q = "in.xz".toList then some (xzEncode 6 [7, 8]) else none

/-- A fault-free world over `fsX`. -/
def worldX : World :=
  ⟨fsX, none, [], false⟩

/-- A filesystem holding a file `bad` that is not valid model-XZ data. -/
def fsBad : FS :=
  fun q => if q = "bad".toList then some [9, 9] else none

/-- A fault-free world over `fsBad`. -/
def worldBad : World :=
  ⟨fsBad, none, [], false⟩

/-- A world over `fsA` where the codec call raises `LZMAError` after
writing one byte, and the cleanup `unlink` succeeds. -/
def worldFault : World :=
  ⟨fsA, some CodecFault.lzma, [5], false⟩

/-- As `worldFault`, but the cleanup `unlink` itself raises `OSError`. -/
def worldFaultKeep : World :=
  ⟨fsA, some CodecFault.lzma, [5], true⟩

/-! ## Lemmas about the chunked copy loop -/

theorem pumpAux_eq (fuel : Nat) (src : Bytes) (h : src.length ≤ fuel) :
    pumpAux fuel src = src := by
  induction fuel generalizing src with
  | zero =>
    have : src = [] := List.eq_nil_of_length_eq_zero (Nat.le_zero.mp h)
    simp [this, pumpAux]
  | succ fuel ih =>
    cases src with
    | nil => simp [pumpAux]
    | cons a as =>
      have hlen : ((a :: as).drop CHUNK_SIZE).length ≤ fuel := by
        rw [List.length_drop]
        simp only [List.length_cons] at h ⊢
        have : (0 : Nat) < CHUNK_SIZE := by norm_num [CHUNK_SIZE]
        omega
      calc pumpAux (fuel + 1) (a :: as)
          = (a :: as).take CHUNK_SIZE ++ pumpAux fuel ((a :: as).drop CHUNK_SIZE) := rfl
        _ = (a :: as).take CHUNK_SIZE ++ (a :: as).drop CHUNK_SIZE := by rw [ih _ hlen]
        _ = a :: as := List.take_append_drop _ _

/-- The copy loop writes exactly the readable bytes, in order. -/
theorem pump_eq (src : Bytes) : pump src = src :=
  pumpAux_eq src.length src (Nat.le_refl _)

/-! ## Lemmas about the path model -/

theorem dropWhile_cons_false {α : Type} {p : α → Bool} {l : List α} {c : α} {t : List α}
    (h : l.dropWhile p = c :: t) : p c = false := by
  induction l with
  | nil => simp [List.dropWhile] at h
  | cons a l ih =>
    rw [List.dropWhile_cons] at h
    by_cases hp : p a = true
    · rw [if_pos hp] at h
      exact ih h
    · rw [if_neg hp] at h
      cases h
      simpa using hp

theorem dir_append_name (p : PathStr) : dirOf p ++ nameOf p = p := by
  unfold dirOf nameOf
  rw [← List.reverse_append, List.takeWhile_append_dropWhile, List.reverse_reverse]

theorem suffixAux_spec (after rest : PathStr) (h : suffixAux after rest ≠ []) :
    after ≠ [] ∧ ∃ c t, rest = c :: t ∧ t ≠ []
      ∧ suffixAux after rest = '.' :: after.reverse := by
  cases rest with
  | nil => exact absurd rfl h
  | cons c t =>
    by_cases hs : after = [] ∨ t = []
    · rw [show suffixAux after (c :: t)
          = if after = [] ∨ t = [] then [] else '.' :: after.reverse from rfl,
        if_pos hs] at h
      exact absurd rfl h
    · push_neg at hs
      refine ⟨hs.1, c, t, rfl, hs.2, ?_⟩
      rw [show suffixAux after (c :: t)
          = if after = [] ∨ t = [] then [] else '.' :: after.reverse from rfl,
        if_neg (by simp [hs.1, hs.2])]

theorem take_dot_assemble (n after t : List Char)
    (h1 : after ++ '.' :: t = n.reverse) :
    n.take (n.length - ('.' :: after.reverse).length) ++ '.' :: after.reverse = n := by
  have hn : n = t.reverse ++ '.' :: after.reverse := by
    have h2 : (after ++ '.' :: t).reverse = n := by
      rw [h1, List.reverse_reverse]
    rw [← h2, List.reverse_append, List.reverse_cons]
    simp
  rw [hn,
    show (t.reverse ++ '.' :: after.reverse).length - ('.' :: after.reverse).length
        = t.reverse.length by simp,
    List.take_left]

theorem suffix_take (n : PathStr) (h : suffixOfName n ≠ []) :
    n.take (n.length - (suffixOfName n).length) ++ suffixOfName n = n := by
  unfold suffixOfName at h ⊢
  obtain ⟨hafter, c, t, hrest, ht, heq⟩ := suffixAux_spec _ _ h
  rw [heq]
  have hc : c = '.' := by
    have := dropWhile_cons_false hrest
    simpa using this
  have h1 : n.reverse.takeWhile (fun c => c ≠ '.') ++ c :: t = n.reverse := by
    rw [← hrest, List.takeWhile_append_dropWhile]
  rw [hc] at h1
  exact take_dot_assemble n _ t h1

/-! ## Claim theorems about default output naming -/

/-- Claim C6: the default compress output appends `.xz` after the existing
extension when the filename has one (`name.ext` to `name.ext.xz`), and
appends `.xz` to the full filename when it has none (`name` to `name.xz`);
in both cases the result is the input path followed by `.xz`. -/
theorem default_compress_appends_xz (p : PathStr) :
    (pathSuffix p ≠ [] → default_output_for_compress p = p ++ ".xz".toList)
    ∧ (pathSuffix p = [] → default_output_for_compress p = p ++ ".xz".toList) := by
  constructor
  · intro h
    have h' : suffixOfName (nameOf p) ≠ [] := h
    unfold default_output_for_compress
    rw [if_pos h]
    unfold with_suffix
    rw [if_neg h']
    unfold pathSuffix
    have hs := suffix_take (nameOf p) h'
    have hmid : (nameOf p).take ((nameOf p).length - (suffixOfName (nameOf p)).length)
        ++ (suffixOfName (nameOf p) ++ ".xz".toList) = nameOf p ++ ".xz".toList := by
      rw [← List.append_assoc, hs]
    rw [hmid, ← List.append_assoc, dir_append_name]
  · intro h
    unfold default_output_for_compress
    rw [if_neg (fun hc => hc h)]

/-- Witness for C6 at the spec's own examples `foo.txt` and `foo`. -/
theorem default_compress_appends_xz_witness :
    default_output_for_compress "foo.txt".toList = "foo.txt".toList ++ ".xz".toList
    ∧ default_output_for_compress "foo".toList = "foo".toList ++ ".xz".toList :=
  ⟨(default_compress_appends_xz _).1 (by decide),
   (default_compress_appends_xz _).2 (by decide)⟩

/-- Claim C7: the default decompress output strips the extension when it is
exactly `.xz` (appending `.xz` back yields the input path again), and
otherwise appends `.out` to the full filename. -/
theorem default_decompress_strips_xz (p : PathStr) :
    (pathSuffix p = ".xz".toList →
      default_output_for_decompress p ++ ".xz".toList = p)
    ∧ (pathSuffix p ≠ ".xz".toList →
      default_output_for_decompress p = p ++ ".out".toList) := by
  constructor
  · intro h
    have hxz : suffixOfName (nameOf p) = ".xz".toList := h
    have hne : suffixOfName (nameOf p) ≠ [] := by
      rw [hxz]
      decide
    unfold default_output_for_decompress
    rw [if_pos h]
    unfold with_suffix
    rw [if_neg hne]
    have hs := suffix_take (nameOf p) hne
    have hmid : (nameOf p).take ((nameOf p).length - (suffixOfName (nameOf p)).length)
        ++ ".xz".toList = nameOf p := by
      rw [← hxz, hs]
    rw [List.append_nil, List.append_assoc, hmid, dir_append_name]
  · intro h
    unfold default_output_for_decompress
    rw [if_neg h]

/-- Witness for C7 at the spec's own examples `foo.txt.xz` and `bar`. -/
theorem default_decompress_strips_xz_witness :
    default_output_for_decompress "foo.txt.xz".toList ++ ".xz".toList = "foo.txt.xz".toList
    ∧ default_output_for_decompress "bar".toList = "bar".toList ++ ".out".toList :=
  ⟨(default_decompress_strips_xz _).1 (by decide),
   (default_decompress_strips_xz _).2 (by decide)⟩

/-- Claim C10: a file named exactly `.xz` has an empty pathlib suffix, so
the decompress default does not strip it and yields `.xz.out`. -/
theorem default_decompress_dot_xz :
    pathSuffix ".xz".toList = []
    ∧ default_output_for_decompress ".xz".toList = ".xz.out".toList := by
  decide

/-! ## Basic filesystem lemmas -/

theorem setFS_same (fs : FS) (p : PathStr) (d : Bytes) : setFS fs p d p = some d := by
  simp [setFS]

theorem setFS_other (fs : FS) (p : PathStr) (d : Bytes) (q : PathStr) (h : q ≠ p) :
    setFS fs p d q = fs q := by
  simp [setFS, h]

theorem delFS_same (fs : FS) (p : PathStr) : delFS fs p p = none := by
  simp [delFS]

theorem delFS_other (fs : FS) (p q : PathStr) (h : q ≠ p) : delFS fs p q = fs q := by
  simp [delFS, h]

/-! ## Branch lemmas for the driver -/

theorem runMain_notFound (c : Codec) (w : World) (a : Args)
    (h : isFile w.fs a.input = false) :
    runMain c w a = ⟨1, w.fs, [errNotFound a.input]⟩ := by
  simp [runMain, h]

theorem runMain_badPreset (c : Codec) (w : World) (a : Args)
    (hin : isFile w.fs a.input = true) (hm : a.mode = Mode.compress)
    (hp : ¬ (0 ≤ a.preset ∧ a.preset ≤ 9)) :
    runMain c w a = ⟨1, w.fs, [errPreset]⟩ := by
  simp [runMain, hin, hm, hp]

theorem runMain_eq_afterValidation (c : Codec) (w : World) (a : Args)
    (hin : isFile w.fs a.input = true)
    (hpre : a.mode = Mode.compress → 0 ≤ a.preset ∧ a.preset ≤ 9) :
    runMain c w a = afterValidation c w a (resolvedOutput a) := by
  cases hm : a.mode with
  | compress =>
    have hp := hpre hm
    simp [runMain, resolvedOutput, hin, hm, hp.1, hp.2]
  | decompress =>
    simp [runMain, resolvedOutput, hin, hm]

theorem afterValidation_exists (c : Codec) (w : World) (a : Args) (outp : PathStr)
    (hex : (w.fs outp).isSome = true) (hf : a.force = false) :
    afterValidation c w a outp = ⟨1, w.fs, [errExists outp]⟩ := by
  simp [afterValidation, hex, hf]

theorem afterValidation_pass (c : Codec) (w : World) (a : Args) (outp : PathStr)
    (h : ¬ ((w.fs outp).isSome = true ∧ a.force = false)) :
    afterValidation c w a outp = codecCall c w a outp := by
  simp only [afterValidation]
  rw [if_neg h]

/-- `main` fails with 1 and leaves the filesystem untouched whenever the
preset is out of range in compress mode (shared between claims). -/
theorem badPreset_run (c : Codec) (w : World) (a : Args)
    (hm : a.mode = Mode.compress) (hp : ¬ (0 ≤ a.preset ∧ a.preset ≤ 9)) :
    (runMain c w a).exitCode = 1 ∧ (runMain c w a).fs = w.fs := by
  by_cases hin : isFile w.fs a.input = false
  · rw [runMain_notFound c w a hin]
    exact ⟨rfl, rfl⟩
  · have hin' : isFile w.fs a.input = true := by
      revert hin
      cases isFile w.fs a.input <;> simp
    rw [runMain_badPreset c w a hin' hm hp]
    exact ⟨rfl, rfl⟩

/-- `main` fails with 1 and leaves the filesystem untouched whenever the
resolved output exists and force is unset (shared between claims). -/
theorem guard_run (c : Codec) (w : World) (a : Args)
    (hex : (w.fs (resolvedOutput a)).isSome = true) (hf : a.force = false) :
    (runMain c w a).exitCode = 1 ∧ (runMain c w a).fs = w.fs := by
  by_cases hin : isFile w.fs a.input = false
  · rw [runMain_notFound c w a hin]
    exact ⟨rfl, rfl⟩
  · have hin' : isFile w.fs a.input = true := by
      revert hin
      cases isFile w.fs a.input <;> simp
    cases hm : a.mode with
    | compress =>
      by_cases hp : 0 ≤ a.preset ∧ a.preset ≤ 9
      · rw [runMain_eq_afterValidation c w a hin' (fun _ => hp),
          afterValidation_exists c w a _ hex hf]
        exact ⟨rfl, rfl⟩
      · rw [runMain_badPreset c w a hin' hm hp]
        exact ⟨rfl, rfl⟩
    | decompress =>
      rw [runMain_eq_afterValidation c w a hin' (fun hcon => by rw [hm] at hcon; cases hcon),
        afterValidation_exists c w a _ hex hf]
      exact ⟨rfl, rfl⟩

/-- When validation passes, `main` is the guarded codec call on the
resolved output path. -/
theorem runMain_eq_codecCall (c : Codec) (w : World) (a : Args)
    (hv : validationOk w a) :
    runMain c w a = codecCall c w a (resolvedOutput a) := by
  obtain ⟨hin, hpre, hforce⟩ := hv
  rw [runMain_eq_afterValidation c w a hin hpre]
  refine afterValidation_pass c w a _ ?_
  rintro ⟨h1, h2⟩
  rw [hforce h1] at h2
  cases h2

theorem lzmaCleanup_exit (w : World) (fs : FS) (outp : PathStr) :
    (lzmaCleanup w fs outp).exitCode = 2 ∧ (lzmaCleanup w fs outp).stderr = [errLzma] :=
  ⟨rfl, rfl⟩

theorem lzmaCleanup_fs_removed (w : World) (fs : FS) (outp : PathStr)
    (hex : (fs outp).isSome = true) (hu : w.unlinkFails = false) :
    (lzmaCleanup w fs outp).fs outp = none := by
  simp [lzmaCleanup, hex, hu, delFS_same]

theorem lzmaCleanup_fs_kept (w : World) (fs : FS) (outp : PathStr)
    (hex : (fs outp).isSome = true) (hu : w.unlinkFails = true) :
    (lzmaCleanup w fs outp).fs outp = fs outp := by
  simp [lzmaCleanup, hex, hu]

theorem lzmaCleanup_fs_other (w : World) (fs : FS) (outp q : PathStr) (hq : q ≠ outp) :
    (lzmaCleanup w fs outp).fs q = fs q := by
  unfold lzmaCleanup
  by_cases hex : (fs outp).isSome = true
  · by_cases hu : w.unlinkFails = true
    · simp [hex, hu]
    · simp [hex, hu, delFS_other fs outp q hq]
  · simp [hex]

/-- The guarded codec call never touches paths other than the output. -/
theorem codecCall_fs_other (c : Codec) (w : World) (a : Args) (outp q : PathStr)
    (hq : q ≠ outp) : (codecCall c w a outp).fs q = w.fs q := by
  unfold codecCall
  cases hf : w.fault with
  | some f =>
    cases f with
    | lzma =>
      rw [lzmaCleanup_fs_other w _ outp q hq, setFS_other w.fs outp w.residue q hq]
    | os =>
      exact setFS_other w.fs outp w.residue q hq
  | none =>
    cases hm : a.mode with
    | compress =>
      show compress_file c w.fs a.input outp a.preset.toNat q = w.fs q
      unfold compress_file
      rw [setFS_other _ outp _ q hq, setFS_other w.fs outp [] q hq]
    | decompress =>
      unfold decompress_file
      cases hd : c.decode ((setFS w.fs outp [] a.input).getD []) with
      | some d =>
        show setFS (setFS w.fs outp []) outp (pump d) q = w.fs q
        rw [setFS_other _ outp _ q hq, setFS_other w.fs outp [] q hq]
      | none =>
        show (lzmaCleanup w (setFS w.fs outp []) outp).fs q = w.fs q
        rw [lzmaCleanup_fs_other w _ outp q hq, setFS_other w.fs outp [] q hq]

/-- Every run of `main` ends in one of six outcomes: the three validation
failures, a codec failure with exit 2, a filesystem failure with exit 3,
or success with exit 0 and no stderr output. -/
theorem runMain_shape (c : Codec) (w : World) (a : Args) :
    runMain c w a = ⟨1, w.fs, [errNotFound a.input]⟩
    ∨ runMain c w a = ⟨1, w.fs, [errPreset]⟩
    ∨ runMain c w a = ⟨1, w.fs, [errExists (resolvedOutput a)]⟩
    ∨ (∃ g, runMain c w a = ⟨2, g, [errLzma]⟩)
    ∨ (∃ g, runMain c w a = ⟨3, g, [errFile]⟩)
    ∨ (∃ g, runMain c w a = ⟨0, g, []⟩) := by
  by_cases hin : isFile w.fs a.input = false
  · exact Or.inl (runMain_notFound c w a hin)
  · have hin' : isFile w.fs a.input = true := by
      revert hin
      cases isFile w.fs a.input <;> simp
    have shape_after : ∀ outp, afterValidation c w a outp = ⟨1, w.fs, [errExists outp]⟩
        ∨ (∃ g, afterValidation c w a outp = ⟨2, g, [errLzma]⟩)
        ∨ (∃ g, afterValidation c w a outp = ⟨3, g, [errFile]⟩)
        ∨ (∃ g, afterValidation c w a outp = ⟨0, g, []⟩) := by
      intro outp
      by_cases hex : (w.fs outp).isSome = true ∧ a.force = false
      · exact Or.inl (afterValidation_exists c w a outp hex.1 hex.2)
      · rw [afterValidation_pass c w a outp hex]
        unfold codecCall
        cases w.fault with
        | some f =>
          cases f with
          | lzma => exact Or.inr (Or.inl ⟨_, rfl⟩)
          | os => exact Or.inr (Or.inr (Or.inl ⟨_, rfl⟩))
        | none =>
          cases a.mode with
          | compress => exact Or.inr (Or.inr (Or.inr ⟨_, rfl⟩))
          | decompress =>
            unfold decompress_file
            cases c.decode ((setFS w.fs outp [] a.input).getD []) with
            | some d => exact Or.inr (Or.inr (Or.inr ⟨_, rfl⟩))
            | none => exact Or.inr (Or.inl ⟨_, rfl⟩)
    cases hm : a.mode with
    | compress =>
      by_cases hp : 0 ≤ a.preset ∧ a.preset ≤ 9
      · have heq := runMain_eq_afterValidation c w a hin' (fun _ => hp)
        rcases shape_after (resolvedOutput a) with h | h | h | h
        · exact Or.inr (Or.inr (Or.inl (heq.trans h)))
        · obtain ⟨g, hg⟩ := h
          exact Or.inr (Or.inr (Or.inr (Or.inl ⟨g, heq.trans hg⟩)))
        · obtain ⟨g, hg⟩ := h
          exact Or.inr (Or.inr (Or.inr (Or.inr (Or.inl ⟨g, heq.trans hg⟩))))
        · obtain ⟨g, hg⟩ := h
          exact Or.inr (Or.inr (Or.inr (Or.inr (Or.inr ⟨g, heq.trans hg⟩))))
      · exact Or.inr (Or.inl (runMain_badPreset c w a hin' hm hp))
    | decompress =>
      have heq := runMain_eq_afterValidation c w a hin'
        (fun hcon => by rw [hm] at hcon; cases hcon)
      rcases shape_after (resolvedOutput a) with h | h | h | h
      · exact Or.inr (Or.inr (Or.inl (heq.trans h)))
      · obtain ⟨g, hg⟩ := h
        exact Or.inr (Or.inr (Or.inr (Or.inl ⟨g, heq.trans hg⟩)))
      · obtain ⟨g, hg⟩ := h
        exact Or.inr (Or.inr (Or.inr (Or.inr (Or.inl ⟨g, heq.trans hg⟩))))
      · obtain ⟨g, hg⟩ := h
        exact Or.inr (Or.inr (Or.inr (Or.inr (Or.inr ⟨g, heq.trans hg⟩))))

/-! ## Claim theorems about the driver -/

/-- Counterexample to claim C2: in decompress mode the preset is never
validated.  Decompressing a valid file with `--preset 10` succeeds with
exit code 0 and creates the output file, instead of failing with exit 1
before any codec I/O as the claim asserts for either mode. -/
theorem decompress_ignores_preset_counterexample :
    (runMain xzCodec worldX
        ⟨Mode.decompress, "in.xz".toList, some "out".toList, 10, false⟩).exitCode = 0
    ∧ (runMain xzCodec worldX
        ⟨Mode.decompress, "in.xz".toList, some "out".toList, 10, false⟩).fs "out".toList
      = some [7, 8] := by
  constructor
  · decide
  · decide

/-- Claim C2 (amended): for every compress-mode invocation whose preset is
outside 0-9, the run fails with exit code 1 before any codec I/O: the
whole filesystem — input file included — is untouched and no output file
is created.  (In decompress mode the preset is ignored.) -/
theorem compress_preset_validation (c : Codec) (w : World) (a : Args)
    (hm : a.mode = Mode.compress) (hp : ¬ (0 ≤ a.preset ∧ a.preset ≤ 9)) :
    (runMain c w a).exitCode = 1 ∧ (runMain c w a).fs = w.fs :=
  badPreset_run c w a hm hp

/-- Witness for C2 (amended) at `--preset 10` in compress mode. -/
theorem compress_preset_validation_witness :
    (runMain xzCodec worldA
        ⟨Mode.compress, "foo".toList, some "out".toList, 10, false⟩).exitCode = 1
    ∧ (runMain xzCodec worldA
        ⟨Mode.compress, "foo".toList, some "out".toList, 10, false⟩).fs = worldA.fs :=
  compress_preset_validation xzCodec worldA
    ⟨Mode.compress, "foo".toList, some "out".toList, 10, false⟩ rfl (by decide)

/-- Claim C3: whenever the resolved output path already exists and force
is not given, the run fails with exit code 1 and the filesystem — in
particular the pre-existing output file — is byte-for-byte unmodified. -/
theorem overwrite_guard (c : Codec) (w : World) (a : Args)
    (hex : (w.fs (resolvedOutput a)).isSome = true) (hf : a.force = false) :
    (runMain c w a).exitCode = 1 ∧ (runMain c w a).fs = w.fs :=
  guard_run c w a hex hf

/-- Witness for C3: compressing `foo` while `foo.xz` already exists. -/
theorem overwrite_guard_witness :
    (runMain xzCodec worldGuard ⟨Mode.compress, "foo".toList, none, 6, false⟩).exitCode = 1
    ∧ (runMain xzCodec worldGuard ⟨Mode.compress, "foo".toList, none, 6, false⟩).fs
      = worldGuard.fs :=
  overwrite_guard xzCodec worldGuard ⟨Mode.compress, "foo".toList, none, 6, false⟩
    (by decide) rfl

/-- Claim C4: the exit-code mapping of `main` — 0 on success; 1 for a
missing input, an invalid preset in compress mode, or an existing output
without force; 2 on an LZMA codec error (injected fault or decoder
rejection); 3 on a filesystem error during the codec call — and every
failure prints exactly one diagnostic line on stderr while success prints
none.  Codec failures are modelled by the spec's §4.2 taxonomy
(`CodecError` / `IOError`), the library being external to the repository. -/
theorem exit_code_mapping (c : Codec) (w : World) (a : Args) :
    ((runMain c w a).exitCode = 0 ∨ (runMain c w a).exitCode = 1
      ∨ (runMain c w a).exitCode = 2 ∨ (runMain c w a).exitCode = 3)
    ∧ (isFile w.fs a.input = false → (runMain c w a).exitCode = 1)
    ∧ (a.mode = Mode.compress → ¬ (0 ≤ a.preset ∧ a.preset ≤ 9) →
        (runMain c w a).exitCode = 1)
    ∧ ((w.fs (resolvedOutput a)).isSome = true → a.force = false →
        (runMain c w a).exitCode = 1)
    ∧ (validationOk w a → w.fault = some CodecFault.lzma →
        (runMain c w a).exitCode = 2)
    ∧ (validationOk w a → w.fault = some CodecFault.os →
        (runMain c w a).exitCode = 3)
    ∧ (validationOk w a → w.fault = none → a.mode = Mode.decompress →
        ∀ g, decompress_file c w.fs a.input (resolvedOutput a) = Except.error g →
          (runMain c w a).exitCode = 2)
    ∧ (validationOk w a → w.fault = none →
        (a.mode = Mode.compress
          ∨ (a.mode = Mode.decompress
              ∧ ∃ g, decompress_file c w.fs a.input (resolvedOutput a) = Except.ok g)) →
        (runMain c w a).exitCode = 0)
    ∧ ((runMain c w a).exitCode ≠ 0 → (runMain c w a).stderr.length = 1)
    ∧ ((runMain c w a).exitCode = 0 → (runMain c w a).stderr = []) := by
  refine ⟨?_, ?_, ?_, ?_, ?_, ?_, ?_, ?_, ?_, ?_⟩
  · rcases runMain_shape c w a with h | h | h | ⟨g, h⟩ | ⟨g, h⟩ | ⟨g, h⟩ <;> rw [h] <;> simp
  · intro h
    rw [runMain_notFound c w a h]
  · intro hm hp
    exact (badPreset_run c w a hm hp).1
  · intro hex hf
    exact (guard_run c w a hex hf).1
  · intro hv hf
    rw [runMain_eq_codecCall c w a hv]
    simp only [codecCall, hf]
    rfl
  · intro hv hf
    rw [runMain_eq_codecCall c w a hv]
    simp only [codecCall, hf]
  · intro hv hfn hm g hdec
    rw [runMain_eq_codecCall c w a hv]
    simp only [codecCall, hfn, hm, hdec]
    rfl
  · intro hv hfn hcase
    rw [runMain_eq_codecCall c w a hv]
    rcases hcase with hm | ⟨hm, g, hdec⟩
    · simp only [codecCall, hfn, hm]
    · simp only [codecCall, hfn, hm, hdec]
  · rcases runMain_shape c w a with h | h | h | ⟨g, h⟩ | ⟨g, h⟩ | ⟨g, h⟩ <;> rw [h] <;> simp
  · rcases runMain_shape c w a with h | h | h | ⟨g, h⟩ | ⟨g, h⟩ | ⟨g, h⟩ <;> rw [h] <;> simp

/-- Witness for C4: missing input exits 1; a bad preset exits 1; an
injected codec fault exits 2. -/
theorem exit_code_mapping_witness :
    (runMain xzCodec worldA ⟨Mode.compress, "nope".toList, none, 6, false⟩).exitCode = 1
    ∧ (runMain xzCodec worldA
        ⟨Mode.compress, "foo".toList, some "out".toList, 10, false⟩).exitCode = 1
    ∧ (runMain xzCodec worldFault
        ⟨Mode.compress, "foo".toList, some "out".toList, 6, false⟩).exitCode = 2 :=
  ⟨(exit_code_mapping xzCodec worldA ⟨Mode.compress, "nope".toList, none, 6, false⟩).2.1
      (by decide),
   (exit_code_mapping xzCodec worldA
        ⟨Mode.compress, "foo".toList, some "out".toList, 10, false⟩).2.2.1 rfl (by decide),
   (exit_code_mapping xzCodec worldFault
        ⟨Mode.compress, "foo".toList, some "out".toList, 6, false⟩).2.2.2.2.1
      (by decide) rfl⟩

/-- Claim C5: on an LZMA codec error during compression `main` exits with
code 2 and removes the partially written output; when the removal itself
fails the failure is swallowed and the exit code remains 2 with the
partial output left in place. -/
theorem compress_lzma_cleanup (c : Codec) (w : World) (a : Args)
    (hv : validationOk w a) (_hm : a.mode = Mode.compress)
    (hf : w.fault = some CodecFault.lzma) :
    (runMain c w a).exitCode = 2
    ∧ (w.unlinkFails = false → (runMain c w a).fs (resolvedOutput a) = none)
    ∧ (w.unlinkFails = true →
        (runMain c w a).exitCode = 2
        ∧ (runMain c w a).fs (resolvedOutput a) = some w.residue) := by
  have hcc : runMain c w a
      = lzmaCleanup w (setFS w.fs (resolvedOutput a) w.residue) (resolvedOutput a) := by
    rw [runMain_eq_codecCall c w a hv]
    simp only [codecCall, hf]
  have hex : (setFS w.fs (resolvedOutput a) w.residue (resolvedOutput a)).isSome = true := by
    rw [setFS_same]
    rfl
  rw [hcc]
  refine ⟨rfl, ?_, ?_⟩
  · intro hu
    exact lzmaCleanup_fs_removed w _ _ hex hu
  · intro hu
    refine ⟨rfl, ?_⟩
    rw [lzmaCleanup_fs_kept w _ _ hex hu, setFS_same]

/-- Witness for C5: an injected `LZMAError` during compression, once with
a working `unlink` (output removed) and once with a failing one (exit
still 2, partial byte kept). -/
theorem compress_lzma_cleanup_witness :
    ((runMain xzCodec worldFault
        ⟨Mode.compress, "foo".toList, some "out".toList, 6, false⟩).exitCode = 2
      ∧ (runMain xzCodec worldFault
        ⟨Mode.compress, "foo".toList, some "out".toList, 6, false⟩).fs "out".toList = none)
    ∧ ((runMain xzCodec worldFaultKeep
        ⟨Mode.compress, "foo".toList, some "out".toList, 6, false⟩).exitCode = 2
      ∧ (runMain xzCodec worldFaultKeep
        ⟨Mode.compress, "foo".toList, some "out".toList, 6, false⟩).fs "out".toList
        = some [5]) :=
  ⟨⟨(compress_lzma_cleanup xzCodec worldFault
        ⟨Mode.compress, "foo".toList, some "out".toList, 6, false⟩
        (by decide) rfl rfl).1,
    (compress_lzma_cleanup xzCodec worldFault
        ⟨Mode.compress, "foo".toList, some "out".toList, 6, false⟩
        (by decide) rfl rfl).2.1 rfl⟩,
   (compress_lzma_cleanup xzCodec worldFaultKeep
        ⟨Mode.compress, "foo".toList, some "out".toList, 6, false⟩
        (by decide) rfl rfl).2.2 rfl⟩

/-- Claim C9: on an LZMA codec error during decompression — the decoder
rejecting the stream — the driver takes the same shared cleanup branch:
exit code 2, the created output best-effort-removed, and kept (empty)
only when the removal fails. -/
theorem decompress_lzma_cleanup (c : Codec) (w : World) (a : Args)
    (hv : validationOk w a) (_hm : a.mode = Mode.decompress) (hfn : w.fault = none)
    (g : FS) (hdec : decompress_file c w.fs a.input (resolvedOutput a) = Except.error g) :
    (runMain c w a).exitCode = 2
    ∧ (w.unlinkFails = false → (runMain c w a).fs (resolvedOutput a) = none)
    ∧ (w.unlinkFails = true → (runMain c w a).fs (resolvedOutput a) = some []) := by
  have hg : g = setFS w.fs (resolvedOutput a) [] := by
    unfold decompress_file at hdec
    cases hd : c.decode ((setFS w.fs (resolvedOutput a) [] a.input).getD []) with
    | some d =>
      rw [hd] at hdec
      simp at hdec
    | none =>
      rw [hd] at hdec
      simp only [Except.error.injEq] at hdec
      exact hdec.symm
  have hcc : runMain c w a = lzmaCleanup w g (resolvedOutput a) := by
    rw [runMain_eq_codecCall c w a hv]
    simp only [codecCall, hfn, _hm, hdec]
  have hex : (g (resolvedOutput a)).isSome = true := by
    rw [hg, setFS_same]
    rfl
  rw [hcc]
  refine ⟨rfl, ?_, ?_⟩
  · intro hu
    exact lzmaCleanup_fs_removed w _ _ hex hu
  · intro hu
    rw [lzmaCleanup_fs_kept w _ _ hex hu, hg, setFS_same]

/-- Witness for C9: decompressing a file that is not valid model-XZ data
exits 2 and leaves no output file behind. -/
theorem decompress_lzma_cleanup_witness :
    (runMain xzCodec worldBad
        ⟨Mode.decompress, "bad".toList, some "out".toList, 6, false⟩).exitCode = 2
    ∧ (runMain xzCodec worldBad
        ⟨Mode.decompress, "bad".toList, some "out".toList, 6, false⟩).fs "out".toList
      = none :=
  ⟨(decompress_lzma_cleanup xzCodec worldBad
      ⟨Mode.decompress, "bad".toList, some "out".toList, 6, false⟩
      (by decide) rfl rfl (setFS fsBad "out".toList []) rfl).1,
   (decompress_lzma_cleanup xzCodec worldBad
      ⟨Mode.decompress, "bad".toList, some "out".toList, 6, false⟩
      (by decide) rfl rfl (setFS fsBad "out".toList []) rfl).2.1 rfl⟩

/-- Counterexample to claim C8: with `--output` equal to the input path
and `--force` set, opening the output for writing truncates the input
before it is read, so the input file content is destroyed. -/
theorem input_overwritten_counterexample :
    worldA.fs "foo".toList = some [1, 2, 3]
    ∧ (runMain xzCodec worldA
        ⟨Mode.compress, "foo".toList, some "foo".toList, 6, true⟩).fs "foo".toList
      ≠ some [1, 2, 3] := by
  constructor
  · decide
  · decide

/-- Claim C8 (amended): in either mode the input file content is never
modified — no temp files exist in the model and there is no in-place
mutation — provided the resolved output path differs from the input path
(with `-o` pointing at the input and `--force`, the input is truncated). -/
theorem input_preserved (c : Codec) (w : World) (a : Args)
    (h : resolvedOutput a ≠ a.input) :
    (runMain c w a).fs a.input = w.fs a.input := by
  by_cases hin : isFile w.fs a.input = false
  · rw [runMain_notFound c w a hin]
  · have hin' : isFile w.fs a.input = true := by
      revert hin
      cases isFile w.fs a.input <;> simp
    cases hm : a.mode with
    | compress =>
      by_cases hp : 0 ≤ a.preset ∧ a.preset ≤ 9
      · rw [runMain_eq_afterValidation c w a hin' (fun _ => hp)]
        by_cases hex : (w.fs (resolvedOutput a)).isSome = true ∧ a.force = false
        · rw [afterValidation_exists c w a _ hex.1 hex.2]
        · rw [afterValidation_pass c w a _ hex]
          exact codecCall_fs_other c w a _ _ (Ne.symm h)
      · rw [runMain_badPreset c w a hin' hm hp]
    | decompress =>
      rw [runMain_eq_afterValidation c w a hin'
        (fun hcon => by rw [hm] at hcon; cases hcon)]
      by_cases hex : (w.fs (resolvedOutput a)).isSome = true ∧ a.force = false
      · rw [afterValidation_exists c w a _ hex.1 hex.2]
      · rw [afterValidation_pass c w a _ hex]
        exact codecCall_fs_other c w a _ _ (Ne.symm h)

/-- Witness for C8 (amended): a plain compression of `foo` leaves `foo`
unchanged. -/
theorem input_preserved_witness :
    (runMain xzCodec worldA ⟨Mode.compress, "foo".toList, none, 6, false⟩).fs "foo".toList
      = worldA.fs "foo".toList :=
  input_preserved xzCodec worldA ⟨Mode.compress, "foo".toList, none, 6, false⟩ (by decide)

/-- Claim C1: for any codec satisfying the spec's round-trip contract for
presets 0-9, running `decompress_file` on the output of `compress_file`
reproduces exactly the original bytes (paths being distinct so that no
stream truncates another). -/
theorem compress_decompress_roundtrip (c : Codec)
    (hc : ∀ p d, p ≤ 9 → c.decode (c.encode p d) = some d)
    (preset : Nat) (hp : preset ≤ 9) (fs : FS) (inp mid outp : PathStr) (C : Bytes)
    (hin : fs inp = some C) (h1 : inp ≠ mid) (h2 : mid ≠ outp) :
    ∃ g, decompress_file c (compress_file c fs inp mid preset) mid outp = Except.ok g
      ∧ g outp = some C := by
  have hdata : setFS fs mid [] inp = some C := by
    rw [setFS_other fs mid [] inp h1]
    exact hin
  have hcomp : compress_file c fs inp mid preset
      = setFS (setFS fs mid []) mid (c.encode preset C) := by
    unfold compress_file
    rw [hdata]
    simp [pump_eq]
  have hread : setFS (compress_file c fs inp mid preset) outp [] mid
      = some (c.encode preset C) := by
    rw [setFS_other _ outp [] mid h2, hcomp, setFS_same]
  refine ⟨setFS (setFS (compress_file c fs inp mid preset) outp []) outp (pump C), ?_, ?_⟩
  · unfold decompress_file
    rw [hread]
    simp only [Option.getD_some]
    rw [hc preset C hp]
  · rw [setFS_same, pump_eq]

/-- Witness for C1 with the spec-modelled codec: `foo` with bytes
`[1, 2, 3]` compressed to `foo.xz`, then decompressed to `out`. -/
theorem compress_decompress_roundtrip_witness :
    ∃ g, decompress_file xzCodec
        (compress_file xzCodec fsA "foo".toList "foo.xz".toList 6)
        "foo.xz".toList "out".toList = Except.ok g
      ∧ g "out".toList = some [1, 2, 3] :=
  compress_decompress_roundtrip xzCodec (fun _ _ _ => rfl) 6 (by decide) fsA
    "foo".toList "foo.xz".toList "out".toList [1, 2, 3] (by decide) (by decide) (by decide)

end LzmaTool
